import Mathlib

/-!
Verification of EcomMicroPythonV3 against its specification.

The order-placement workflow (Inventory Ledger, Payment Authorizer, Order
Saga Coordinator, Order Store) is specified in spec.md §2-§7 but has no
implementation in the repository sources; those components are modelled
here directly from the specification text.  The frontend components
(products filter, header cart badge, admin test dashboard) are embedded
from the TypeScript sources.
-/

namespace Ecom

/-! ## Inventory Ledger (spec §4.2, data model §3 "Reservation") -/

/-- Modelled from the spec: reservation status, one of `Held`, `Committed`,
`Released` (spec §3, "Reservation"); the Inventory Ledger implementation is
missing from the sources. -/
inductive ResStatus
  | Held
  | Committed
  | Released
deriving DecidableEq, Repr

/-- Modelled from the spec: a reservation, identified by the
(order ID, product ID) pair, carrying a reserved quantity and a status
(spec §3); the Inventory Ledger implementation is missing from the sources. -/
structure Reservation where
  orderId : Nat
  productId : Nat
  qty : Nat
  status : ResStatus
deriving DecidableEq, Repr

/-- Modelled from the spec: the Inventory Ledger state, owning per-product
available-quantity counters and the reservations (spec §2, §4.2); the
implementation is missing from the sources. -/
structure Inventory where
  available : Nat → Nat
  reservations : List Reservation

/-- Result of `Reserve` (spec §4.2): `Held` or `InsufficientStock`. -/
inductive ReserveResult
  | held
  | insufficientStock
deriving DecidableEq, Repr

/-- Whether a reservation identified by (orderId, productId) already exists:
the idempotency-key lookup of `Reserve`. -/
def hasReservation (orderId productId : Nat) (rs : List Reservation) : Bool :=
  rs.any fun r => r.orderId == orderId && r.productId == productId

/-- Modelled from the spec: `Reserve(orderID, productID, qty, idempotencyKey)`
(spec §4.2).  A repeated call with the same key returns the original result
and does not double-decrement; otherwise available quantity is checked and
decremented atomically, creating a `Held` reservation, or
`InsufficientStock` is returned with no state change.  The implementation
is missing from the sources. -/
def reserveOp (orderId productId qty : Nat) (inv : Inventory) :
    ReserveResult × Inventory :=
  if hasReservation orderId productId inv.reservations then
    (ReserveResult.held, inv)
  else if qty ≤ inv.available productId then
    (ReserveResult.held,
      { available := fun p =>
          if p = productId then inv.available p - qty else inv.available p,
        reservations := ⟨orderId, productId, qty, ResStatus.Held⟩ :: inv.reservations })
  else
    (ReserveResult.insufficientStock, inv)

/-- Move the `Held` reservation identified by (orderId, productId) to
status `st`, leaving any other reservation unchanged. -/
def settleRes (orderId productId : Nat) (st : ResStatus) (r : Reservation) :
    Reservation :=
  if r.orderId = orderId ∧ r.productId = productId ∧ r.status = ResStatus.Held then
    { r with status := st }
  else r

/-- Settle every matching `Held` reservation in the list. -/
def settleReservations (orderId productId : Nat) (st : ResStatus)
    (rs : List Reservation) : List Reservation :=
  rs.map (settleRes orderId productId st)

/-- Quantity a single reservation contributes to the `Held` total of
(orderId, productId). -/
def resHeld (orderId productId : Nat) (r : Reservation) : Nat :=
  if r.orderId = orderId ∧ r.productId = productId ∧ r.status = ResStatus.Held then
    r.qty
  else 0

/-- Total quantity of the `Held` reservations identified by
(orderId, productId). -/
def heldQty (orderId productId : Nat) (rs : List Reservation) : Nat :=
  (rs.map (resHeld orderId productId)).sum

/-- Modelled from the spec: `Commit(reservationID)` converts `Held` to
`Committed`, a permanent decrement (spec §4.2); the implementation is
missing from the sources. -/
def commitOp (orderId productId : Nat) (inv : Inventory) : Inventory :=
  { inv with
    reservations := settleReservations orderId productId ResStatus.Committed inv.reservations }

/-- Modelled from the spec: `Release(reservationID)` converts `Held` to
`Released`, returning the quantity to availability (spec §4.2); the
implementation is missing from the sources. -/
def releaseOp (orderId productId : Nat) (inv : Inventory) : Inventory :=
  { available := fun p =>
      if p = productId then
        inv.available p + heldQty orderId productId inv.reservations
      else inv.available p,
    reservations := settleReservations orderId productId ResStatus.Released inv.reservations }

/-- An operation on the Inventory Ledger: `Reserve`, `Commit` or `Release`
(spec §4.2). -/
inductive InvOp
  | reserve (orderId productId qty : Nat)
  | commit (orderId productId : Nat)
  | release (orderId productId : Nat)

/-- Apply one ledger operation to the inventory state. -/
def applyInvOp (op : InvOp) (inv : Inventory) : Inventory :=
  match op with
  | InvOp.reserve o p q => (reserveOp o p q inv).2
  | InvOp.commit o p => commitOp o p inv
  | InvOp.release o p => releaseOp o p inv

/-- Apply a sequence of ledger operations in order. -/
def applyInvOps (ops : List InvOp) (inv : Inventory) : Inventory :=
  ops.foldl (fun i op => applyInvOp op i) inv

/-- The initial inventory: every product at its stock level, no
reservations. -/
def initInventory (stock : Nat → Nat) : Inventory :=
  { available := stock, reservations := [] }

/-- Quantity a single reservation contributes to the `Held` + `Committed`
total of product `p`. -/
def resActive (p : Nat) (r : Reservation) : Nat :=
  if r.productId = p ∧ (r.status = ResStatus.Held ∨ r.status = ResStatus.Committed) then
    r.qty
  else 0

/-- Sum of the quantities of the `Held` and `Committed` reservations of
product `p`. -/
def activeQty (p : Nat) (rs : List Reservation) : Nat :=
  (rs.map (resActive p)).sum

/-- Conservation: for every product, available quantity plus active
(held or committed) quantity equals the initial stock. -/
def Conserved (stock : Nat → Nat) (inv : Inventory) : Prop :=
  ∀ p, inv.available p + activeQty p inv.reservations = stock p

lemma resActive_settle_committed (oid pid p : Nat) (r : Reservation) :
    resActive p (settleRes oid pid ResStatus.Committed r) = resActive p r := by
  unfold settleRes resActive
  by_cases h : r.orderId = oid ∧ r.productId = pid ∧ r.status = ResStatus.Held
  · obtain ⟨h1, h2, h3⟩ := h
    simp [h1, h2, h3]
  · simp [h]

lemma resActive_settle_released (oid pid : Nat) (r : Reservation) :
    resActive pid (settleRes oid pid ResStatus.Released r) + resHeld oid pid r
      = resActive pid r := by
  unfold settleRes resActive resHeld
  by_cases h : r.orderId = oid ∧ r.productId = pid ∧ r.status = ResStatus.Held
  · obtain ⟨h1, h2, h3⟩ := h
    simp [h1, h2, h3]
  · simp [h]

lemma resActive_settle_released_ne (oid pid p : Nat) (hp : p ≠ pid)
    (r : Reservation) :
    resActive p (settleRes oid pid ResStatus.Released r) = resActive p r := by
  unfold settleRes resActive
  by_cases h : r.orderId = oid ∧ r.productId = pid ∧ r.status = ResStatus.Held
  · obtain ⟨h1, h2, h3⟩ := h
    simp [h1, h2, h3, Ne.symm hp]
  · simp [h]

lemma activeQty_settle_committed (oid pid p : Nat) (rs : List Reservation) :
    activeQty p (settleReservations oid pid ResStatus.Committed rs) = activeQty p rs := by
  induction rs with
  | nil => rfl
  | cons r rs ih =>
      simp only [settleReservations, activeQty, List.map_cons, List.sum_cons] at ih ⊢
      rw [resActive_settle_committed oid pid p r, ih]

lemma activeQty_settle_released (oid pid : Nat) (rs : List Reservation) :
    activeQty pid (settleReservations oid pid ResStatus.Released rs) + heldQty oid pid rs
      = activeQty pid rs := by
  induction rs with
  | nil => rfl
  | cons r rs ih =>
      simp only [settleReservations, activeQty, heldQty, List.map_cons,
        List.sum_cons] at ih ⊢
      have h := resActive_settle_released oid pid r
      omega

lemma activeQty_settle_released_ne (oid pid p : Nat) (hp : p ≠ pid)
    (rs : List Reservation) :
    activeQty p (settleReservations oid pid ResStatus.Released rs) = activeQty p rs := by
  induction rs with
  | nil => rfl
  | cons r rs ih =>
      simp only [settleReservations, activeQty, List.map_cons, List.sum_cons] at ih ⊢
      rw [resActive_settle_released_ne oid pid p hp r, ih]

lemma conserved_applyInvOp (stock : Nat → Nat) (op : InvOp) (inv : Inventory)
    (h : Conserved stock inv) : Conserved stock (applyInvOp op inv) := by
  intro p
  match op with
  | InvOp.reserve oid pid q =>
      simp only [applyInvOp, reserveOp]
      by_cases hk : hasReservation oid pid inv.reservations = true
      · rw [if_pos hk]
        exact h p
      · rw [if_neg hk]
        by_cases hq : q ≤ inv.available pid
        · rw [if_pos hq]
          have hc := h p
          simp only [activeQty, List.map_cons, List.sum_cons] at hc ⊢
          by_cases hp : p = pid
          · subst hp
            have hnew : resActive p ⟨oid, p, q, ResStatus.Held⟩ = q := by
              simp [resActive]
            rw [if_pos rfl, hnew]
            omega
          · have hnew : resActive p ⟨oid, pid, q, ResStatus.Held⟩ = 0 := by
              simp [resActive, Ne.symm hp]
            rw [if_neg hp, hnew]
            omega
        · rw [if_neg hq]
          exact h p
  | InvOp.commit oid pid =>
      simp only [applyInvOp, commitOp]
      rw [activeQty_settle_committed]
      exact h p
  | InvOp.release oid pid =>
      simp only [applyInvOp, releaseOp]
      by_cases hp : p = pid
      · subst hp
        rw [if_pos rfl]
        have h1 := activeQty_settle_released oid p inv.reservations
        have h2 := h p
        omega
      · rw [if_neg hp]
        rw [activeQty_settle_released_ne oid pid p hp]
        exact h p

lemma conserved_applyInvOps (stock : Nat → Nat) (ops : List InvOp) (inv : Inventory)
    (h : Conserved stock inv) : Conserved stock (applyInvOps ops inv) := by
  induction ops generalizing inv with
  | nil => exact h
  | cons op ops ih =>
      exact ih (applyInvOp op inv) (conserved_applyInvOp stock op inv h)

/-- C1: for every product, in every state reachable by any sequence of
Reserve, Commit and Release operations on the Inventory Ledger starting
from the initial stock, the sum of the quantities of that product's
reservations in status `Held` plus those in status `Committed` never
exceeds the product's available stock. -/
theorem inventory_held_committed_le_stock (stock : Nat → Nat)
    (ops : List InvOp) (p : Nat) :
    activeQty p (applyInvOps ops (initInventory stock)).reservations ≤ stock p := by
  have h0 : Conserved stock (initInventory stock) := by
    intro q
    simp [initInventory, activeQty]
  have h := conserved_applyInvOps stock ops (initInventory stock) h0 p
  omega

/-! ## Payment Authorizer (spec §4.3, data model §3 "PaymentIntent") -/

/-- Modelled from the spec: payment-intent status, one of `Authorized`,
`Captured`, `Voided`, `Failed` (spec §3, "PaymentIntent"); the Payment
Authorizer implementation is missing from the sources. -/
inductive PayStatus
  | Authorized
  | Captured
  | Voided
  | Failed
deriving DecidableEq, Repr

/-- Modelled from the spec: a payment intent with its amount and status,
unique per idempotency token (spec §3); the implementation is missing from
the sources. -/
structure PaymentIntent where
  amount : Nat
  status : PayStatus
deriving DecidableEq, Repr

/-- Modelled from the spec: the Payment Authorizer state, its intents keyed
by idempotency token (spec §4.3); the implementation is missing from the
sources. -/
structure PayState where
  intents : Nat → Option PaymentIntent

/-- Result of `Authorize` (spec §4.3): `Authorized` or `Declined`. -/
inductive AuthResult
  | authorized
  | declined
deriving DecidableEq, Repr

/-- Result of `Capture` (spec §4.3): `Captured` or `Failed`. -/
inductive CapResult
  | captured
  | failed
deriving DecidableEq, Repr

/-- Modelled from the spec: `Authorize(idempotencyKey, amount)` (spec §4.3).
A second call with the same key returns the stored outcome rather than
re-executing; a fresh call records `Authorized` or `Failed` according to
the processor's decision, passed here as the `processorOk` flag.  The
implementation is missing from the sources. -/
def authorizeOp (processorOk : Bool) (key amount : Nat) (ps : PayState) :
    AuthResult × PayState :=
  match ps.intents key with
  | some i =>
      (if i.status = PayStatus.Failed then AuthResult.declined else AuthResult.authorized, ps)
  | none =>
      if processorOk then
        (AuthResult.authorized,
          { intents := fun k =>
              if k = key then some ⟨amount, PayStatus.Authorized⟩ else ps.intents k })
      else
        (AuthResult.declined,
          { intents := fun k =>
              if k = key then some ⟨amount, PayStatus.Failed⟩ else ps.intents k })

/-- Modelled from the spec: `Capture(idempotencyKey)` (spec §4.3).  A
capture attempted on an already-`Captured` intent returns the original
success rather than erroring; only an `Authorized` intent is actually
captured, and only when the processor succeeds (the `processorOk` flag).
The implementation is missing from the sources. -/
def captureOp (processorOk : Bool) (key : Nat) (ps : PayState) :
    CapResult × PayState :=
  match ps.intents key with
  | some i =>
      match i.status with
      | PayStatus.Captured => (CapResult.captured, ps)
      | PayStatus.Authorized =>
          if processorOk then
            (CapResult.captured,
              { intents := fun k =>
                  if k = key then some { i with status := PayStatus.Captured }
                  else ps.intents k })
          else (CapResult.failed, ps)
      | _ => (CapResult.failed, ps)
  | none => (CapResult.failed, ps)

/-- Modelled from the spec: `Void(idempotencyKey)` (spec §4.3) voids an
authorized intent; the implementation is missing from the sources. -/
def voidOp (key : Nat) (ps : PayState) : PayState :=
  match ps.intents key with
  | some i =>
      if i.status = PayStatus.Authorized then
        { intents := fun k =>
            if k = key then some { i with status := PayStatus.Voided }
            else ps.intents k }
      else ps
  | none => ps

/-- C2: for every idempotency key and identical inputs, a repeated call of
`Reserve`, `Authorize` or `Capture` with that key returns the stored
outcome of the first call and produces no additional side effect -- the
state is exactly the state after the first call, so stock is decremented
at most once and a payment captured at most once per key; in particular a
`Capture` on an already-`Captured` intent returns the original success
with no state change. -/
theorem idempotent_reserve_authorize_capture
    (inv : Inventory) (ps : PayState) (oid pid q key amt : Nat) (ok ok2 : Bool) :
    (reserveOp oid pid q (reserveOp oid pid q inv).2
        = ((reserveOp oid pid q inv).1, (reserveOp oid pid q inv).2))
    ∧ (authorizeOp ok2 key amt (authorizeOp ok key amt ps).2
        = ((authorizeOp ok key amt ps).1, (authorizeOp ok key amt ps).2))
    ∧ (captureOp ok key (captureOp ok key ps).2 = captureOp ok key ps)
    ∧ (∀ i, ps.intents key = some i → i.status = PayStatus.Captured →
        captureOp ok key ps = (CapResult.captured, ps)) := by
  refine ⟨?_, ?_, ?_, ?_⟩
  · by_cases hk : hasReservation oid pid inv.reservations = true
    · simp [reserveOp, hk]
    · by_cases hq : q ≤ inv.available pid
      · have h1 : reserveOp oid pid q inv =
            (ReserveResult.held,
              { available := fun p =>
                  if p = pid then inv.available p - q else inv.available p,
                reservations :=
                  ⟨oid, pid, q, ResStatus.Held⟩ :: inv.reservations }) := by
          rw [reserveOp, if_neg hk, if_pos hq]
        rw [h1]
        simp [reserveOp, hasReservation]
      · simp [reserveOp, hk, hq]
  · match hkey : ps.intents key with
    | some i =>
        simp [authorizeOp, hkey]
    | none =>
        by_cases hok : ok = true
        · subst hok
          simp [authorizeOp, hkey]
        · have : ok = false := by revert hok; cases ok <;> simp
          subst this
          simp [authorizeOp, hkey]
  · match hkey : ps.intents key with
    | some i =>
        match hst : i.status with
        | PayStatus.Captured => simp [captureOp, hkey, hst]
        | PayStatus.Authorized =>
            by_cases hok : ok = true
            · subst hok
              simp [captureOp, hkey, hst]
            · have : ok = false := by revert hok; cases ok <;> simp
              subst this
              simp [captureOp, hkey, hst]
        | PayStatus.Voided => simp [captureOp, hkey, hst]
        | PayStatus.Failed => simp [captureOp, hkey, hst]
    | none => simp [captureOp, hkey]
  · intro i hkey hst
    simp [captureOp, hkey, hst]

/-- Witness for C2 at a concrete ledger and payment state: reserving twice
for order 1, product 2, quantity 3 on stock 10 is a no-op the second time;
authorizing twice under key 7 returns the stored outcome; capturing an
already-`Captured` intent under key 7 returns the original success with no
state change. -/
theorem idempotent_reserve_authorize_capture_witness :
    captureOp true 7
        (PayState.mk fun k => if k = 7 then some ⟨50, PayStatus.Captured⟩ else none)
      = (CapResult.captured,
          PayState.mk fun k => if k = 7 then some ⟨50, PayStatus.Captured⟩ else none) :=
  (idempotent_reserve_authorize_capture
      (initInventory fun _ => 10)
      (PayState.mk fun k => if k = 7 then some ⟨50, PayStatus.Captured⟩ else none)
      1 2 3 7 50 true false).2.2.2 ⟨50, PayStatus.Captured⟩ rfl rfl

/-! ## Order data model and Order Store (spec §3 "Order", §4.4) -/

/-- Modelled from the spec: the Order Status Machine states (spec §4.1);
the Order Saga Coordinator implementation is missing from the sources. -/
inductive OrderStatus
  | Pending
  | Reserving
  | ReservationFailed
  | Reserved
  | Authorizing
  | AuthorizationFailed
  | Authorized
  | Capturing
  | CaptureFailed
  | Completed
  | Cancelled
deriving DecidableEq, Repr

/-- Modelled from the spec: an ordered line item -- product ID, quantity,
unit-price snapshot (spec §3, "Order"); the implementation is missing from
the sources. -/
structure LineItem where
  productId : Nat
  qty : Nat
  unitPrice : Nat
deriving DecidableEq, Repr

/-- Modelled from the spec: an order record -- identity, buyer, line items,
total amount, status and a monotonically increasing version (spec §3,
"Order"); the implementation is missing from the sources. -/
structure Order where
  orderId : Nat
  buyer : Nat
  items : List LineItem
  totalAmount : Nat
  status : OrderStatus
  version : Nat
deriving DecidableEq, Repr

/-- Sum of the line-item subtotals: quantity times unit-price snapshot. -/
def lineTotal (items : List LineItem) : Nat :=
  (items.map fun it => it.qty * it.unitPrice).sum

/-- Modelled from the spec: the Coordinator creates an Order in `Pending`
on checkout request, its total amount the sum of line-item subtotals at
creation time (spec §3, §4.1); the implementation is missing from the
sources. -/
def createOrder (orderId buyer : Nat) (items : List LineItem) : Order :=
  { orderId := orderId, buyer := buyer, items := items,
    totalAmount := lineTotal items, status := OrderStatus.Pending, version := 0 }

/-- The Order Store's stored records, keyed by order ID. -/
def OrderStore := Nat → Option Order

/-- Result of `Save` (spec §4.4): persisted, or a version conflict. -/
inductive SaveResult
  | saved
  | conflict
deriving DecidableEq, Repr

/-- Modelled from the spec: `Save(order)` persists the full order record
with its version; it fails with a conflict if the stored version is not
exactly one less than the incoming version (spec §4.4, optimistic
concurrency); a first write (no stored record) persists.  The
implementation is missing from the sources. -/
def saveOp (st : OrderStore) (o : Order) : SaveResult × OrderStore :=
  match st o.orderId with
  | some prev =>
      if prev.version + 1 = o.version then
        (SaveResult.saved, fun i => if i = o.orderId then some o else st i)
      else
        (SaveResult.conflict, st)
  | none => (SaveResult.saved, fun i => if i = o.orderId then some o else st i)

/-- C5: for every order and every stored version, `Save(order)` persists
the order exactly when the stored version is exactly one less than the
incoming order's version, and fails with a conflict -- leaving the stored
record unchanged -- in every other case. -/
theorem save_optimistic_concurrency (st : OrderStore) (o prev : Order)
    (hprev : st o.orderId = some prev) :
    (prev.version + 1 = o.version →
        saveOp st o = (SaveResult.saved, fun i => if i = o.orderId then some o else st i))
    ∧ (prev.version + 1 ≠ o.version → saveOp st o = (SaveResult.conflict, st)) := by
  constructor
  · intro hv
    simp [saveOp, hprev, hv]
  · intro hv
    simp [saveOp, hprev, hv]

/-- Witness for C5: a store holding order 1 at version 0 rejects a save at
version 2 with a conflict, leaving the store unchanged. -/
theorem save_optimistic_concurrency_witness :
    saveOp (fun i => if i = 1 then some (createOrder 1 2 []) else none)
        { createOrder 1 2 [] with version := 2 }
      = (SaveResult.conflict, fun i => if i = 1 then some (createOrder 1 2 []) else none) :=
  (save_optimistic_concurrency
      (fun i => if i = 1 then some (createOrder 1 2 []) else none)
      { createOrder 1 2 [] with version := 2 }
      (createOrder 1 2 []) rfl).2 (by decide)

/-! ## Order Saga Coordinator (spec §4.1) -/

/-- Modelled from the spec: the transitions of the Order Status Machine
(spec §4.1); the Order Saga Coordinator implementation is missing from the
sources. -/
def canTransition : OrderStatus → OrderStatus → Bool
  | OrderStatus.Pending, OrderStatus.Reserving => true
  | OrderStatus.Reserving, OrderStatus.ReservationFailed => true
  | OrderStatus.Reserving, OrderStatus.Reserved => true
  | OrderStatus.ReservationFailed, OrderStatus.Cancelled => true
  | OrderStatus.Reserved, OrderStatus.Authorizing => true
  | OrderStatus.Authorizing, OrderStatus.AuthorizationFailed => true
  | OrderStatus.Authorizing, OrderStatus.Authorized => true
  | OrderStatus.AuthorizationFailed, OrderStatus.Cancelled => true
  | OrderStatus.Authorized, OrderStatus.Capturing => true
  | OrderStatus.Capturing, OrderStatus.CaptureFailed => true
  | OrderStatus.Capturing, OrderStatus.Completed => true
  | OrderStatus.CaptureFailed, OrderStatus.Cancelled => true
  | _, _ => false

/-- `Completed` and `Cancelled` are the terminal states (spec §4.1). -/
def isTerminal : OrderStatus → Bool
  | OrderStatus.Completed => true
  | OrderStatus.Cancelled => true
  | _ => false

/-- The combined state the saga acts on: the Inventory Ledger, the Payment
Authorizer and the order being driven. -/
structure World where
  inv : Inventory
  pay : PayState
  order : Order

/-- One status transition of the order: new status, version incremented,
every other field untouched. -/
def setStatus (o : Order) (s : OrderStatus) : Order :=
  { o with status := s, version := o.version + 1 }

/-- Modelled from the spec: the Coordinator reserves each line item in
sequence, stopping at the first `InsufficientStock` (spec §4.1, §4.5
tie-break policy); the implementation is missing from the sources. -/
def reserveItems (orderId : Nat) : List LineItem → Inventory → Bool × Inventory
  | [], inv => (true, inv)
  | it :: rest, inv =>
      match reserveOp orderId it.productId it.qty inv with
      | (ReserveResult.held, inv2) => reserveItems orderId rest inv2
      | (ReserveResult.insufficientStock, inv2) => (false, inv2)

/-- Release the reservation of every line item of the order (compensation,
spec §4.1/§7): releasing an item that was never reserved is a no-op. -/
def releaseItems (orderId : Nat) (items : List LineItem) (inv : Inventory) :
    Inventory :=
  items.foldl (fun acc it => releaseOp orderId it.productId acc) inv

/-- Commit the reservation of every line item of the order on success
(spec §4.1). -/
def commitItems (orderId : Nat) (items : List LineItem) (inv : Inventory) :
    Inventory :=
  items.foldl (fun acc it => commitOp orderId it.productId acc) inv

/-- Modelled from the spec: one step of the Order Saga Coordinator's state
machine (spec §4.1).  The payment idempotency token is derived
deterministically from the order ID (spec §3); the processor decisions are
the `authOk` / `captureOk` flags.  On a reservation failure all
already-held reservations are released before the transition to
`ReservationFailed`; the compensation paths release (and void) before
reaching `Cancelled`.  Terminal orders are left untouched.  The
implementation is missing from the sources. -/
def sagaStep (authOk captureOk : Bool) (w : World) : World :=
  match w.order.status with
  | OrderStatus.Pending =>
      { w with order := setStatus w.order OrderStatus.Reserving }
  | OrderStatus.Reserving =>
      match reserveItems w.order.orderId w.order.items w.inv with
      | (true, inv2) =>
          { w with inv := inv2, order := setStatus w.order OrderStatus.Reserved }
      | (false, inv2) =>
          { w with inv := releaseItems w.order.orderId w.order.items inv2,
                   order := setStatus w.order OrderStatus.ReservationFailed }
  | OrderStatus.ReservationFailed =>
      { w with order := setStatus w.order OrderStatus.Cancelled }
  | OrderStatus.Reserved =>
      { w with order := setStatus w.order OrderStatus.Authorizing }
  | OrderStatus.Authorizing =>
      match authorizeOp authOk w.order.orderId w.order.totalAmount w.pay with
      | (AuthResult.authorized, ps2) =>
          { w with pay := ps2, order := setStatus w.order OrderStatus.Authorized }
      | (AuthResult.declined, ps2) =>
          { w with pay := ps2,
                   order := setStatus w.order OrderStatus.AuthorizationFailed }
  | OrderStatus.AuthorizationFailed =>
      { w with inv := releaseItems w.order.orderId w.order.items w.inv,
               order := setStatus w.order OrderStatus.Cancelled }
  | OrderStatus.Authorized =>
      { w with order := setStatus w.order OrderStatus.Capturing }
  | OrderStatus.Capturing =>
      match captureOp captureOk w.order.orderId w.pay with
      | (CapResult.captured, ps2) =>
          { w with pay := ps2,
                   inv := commitItems w.order.orderId w.order.items w.inv,
                   order := setStatus w.order OrderStatus.Completed }
      | (CapResult.failed, ps2) =>
          { w with pay := ps2, order := setStatus w.order OrderStatus.CaptureFailed }
  | OrderStatus.CaptureFailed =>
      { w with pay := voidOp w.order.orderId w.pay,
               inv := releaseItems w.order.orderId w.order.items w.inv,
               order := setStatus w.order OrderStatus.Cancelled }
  | OrderStatus.Completed => w
  | OrderStatus.Cancelled => w

/-- Drive the saga for at most `fuel` steps, stopping at a terminal
state. -/
def runSaga (authOk captureOk : Bool) : Nat → World → World
  | 0, w => w
  | Nat.succ n, w =>
      if isTerminal w.order.status then w
      else runSaga authOk captureOk n (sagaStep authOk captureOk w)

lemma sagaStep_preserves_order_fields (authOk captureOk : Bool) (w : World) :
    (sagaStep authOk captureOk w).order.orderId = w.order.orderId
    ∧ (sagaStep authOk captureOk w).order.buyer = w.order.buyer
    ∧ (sagaStep authOk captureOk w).order.items = w.order.items
    ∧ (sagaStep authOk captureOk w).order.totalAmount = w.order.totalAmount := by
  rw [sagaStep]
  cases hs : w.order.status <;> simp only []
  case Pending => simp [setStatus]
  case Reserving =>
      rcases hr : reserveItems w.order.orderId w.order.items w.inv with ⟨ok, inv2⟩
      cases ok <;> simp [setStatus]
  case ReservationFailed => simp [setStatus]
  case Reserved => simp [setStatus]
  case Authorizing =>
      rcases ha : authorizeOp authOk w.order.orderId w.order.totalAmount w.pay with ⟨res, ps2⟩
      cases res <;> simp [setStatus]
  case AuthorizationFailed => simp [setStatus]
  case Authorized => simp [setStatus]
  case Capturing =>
      rcases hc : captureOp captureOk w.order.orderId w.pay with ⟨res, ps2⟩
      cases res <;> simp [setStatus]
  case CaptureFailed => simp [setStatus]
  case Completed => simp
  case Cancelled => simp

lemma runSaga_preserves_order_fields (authOk captureOk : Bool) (n : Nat) (w : World) :
    (runSaga authOk captureOk n w).order.orderId = w.order.orderId
    ∧ (runSaga authOk captureOk n w).order.buyer = w.order.buyer
    ∧ (runSaga authOk captureOk n w).order.items = w.order.items
    ∧ (runSaga authOk captureOk n w).order.totalAmount = w.order.totalAmount := by
  induction n generalizing w with
  | zero => exact ⟨rfl, rfl, rfl, rfl⟩
  | succ n ih =>
      rw [runSaga]
      by_cases ht : isTerminal w.order.status = true
      · rw [if_pos ht]
        exact ⟨rfl, rfl, rfl, rfl⟩
      · rw [if_neg ht]
        obtain ⟨a1, a2, a3, a4⟩ := ih (sagaStep authOk captureOk w)
        obtain ⟨b1, b2, b3, b4⟩ := sagaStep_preserves_order_fields authOk captureOk w
        exact ⟨a1.trans b1, a2.trans b2, a3.trans b3, a4.trans b4⟩

lemma sagaStep_terminal (authOk captureOk : Bool) (w : World)
    (h : isTerminal w.order.status = true) : sagaStep authOk captureOk w = w := by
  rw [sagaStep]
  cases hs : w.order.status <;> rw [hs] at h <;> simp only [isTerminal] at h <;>
    first
    | rfl
    | exact absurd h (by decide)

lemma runSaga_terminal (authOk captureOk : Bool) (n : Nat) (w : World)
    (h : isTerminal w.order.status = true) : runSaga authOk captureOk n w = w := by
  cases n with
  | zero => rfl
  | succ n => rw [runSaga, if_pos h]

/-- C3: no transition of the Order Status Machine leaves `Completed` or
`Cancelled`, and the Coordinator's step performs no further mutation of an
order in a terminal state: the whole world, order record included, is left
exactly as it is. -/
theorem terminal_states_are_final (authOk captureOk : Bool) (w : World) (n : Nat)
    (h : isTerminal w.order.status = true) :
    (∀ t, canTransition OrderStatus.Completed t = false
        ∧ canTransition OrderStatus.Cancelled t = false)
    ∧ sagaStep authOk captureOk w = w
    ∧ runSaga authOk captureOk n w = w := by
  refine ⟨fun t => ⟨?_, ?_⟩, sagaStep_terminal authOk captureOk w h,
    runSaga_terminal authOk captureOk n w h⟩
  · cases t <;> rfl
  · cases t <;> rfl

/-- Witness for C3 at a concrete world: a `Completed` order of buyer 2 with
no items is left untouched by the coordinator step. -/
theorem terminal_states_are_final_witness :
    sagaStep true true
        ⟨initInventory fun _ => 5, PayState.mk fun _ => none,
          { createOrder 1 2 [] with status := OrderStatus.Completed }⟩
      = ⟨initInventory fun _ => 5, PayState.mk fun _ => none,
          { createOrder 1 2 [] with status := OrderStatus.Completed }⟩ :=
  (terminal_states_are_final true true
      ⟨initInventory fun _ => 5, PayState.mk fun _ => none,
        { createOrder 1 2 [] with status := OrderStatus.Completed }⟩ 3 rfl).2.1

/-- C7: an order's total amount equals the sum over its line items of
quantity times the unit-price snapshot at creation, and no coordinator
step performed after creation ever changes the total amount. -/
theorem total_amount_is_creation_snapshot (orderId buyer : Nat)
    (items : List LineItem) (authOk captureOk : Bool) (w : World) (n : Nat) :
    (createOrder orderId buyer items).totalAmount
        = (items.map fun it => it.qty * it.unitPrice).sum
    ∧ (sagaStep authOk captureOk w).order.totalAmount = w.order.totalAmount
    ∧ (runSaga authOk captureOk n w).order.totalAmount = w.order.totalAmount :=
  ⟨rfl, (sagaStep_preserves_order_fields authOk captureOk w).2.2.2,
    (runSaga_preserves_order_fields authOk captureOk n w).2.2.2⟩

/-! ## Compensation clears reservations (for C6) -/

/-- The product IDs of an order's line items. -/
def pidsOf (items : List LineItem) : List Nat :=
  items.map fun it => it.productId

/-- Every reservation of order `oid` is on one of the products `pids`. -/
def ResWithin (oid : Nat) (pids : List Nat) (rs : List Reservation) : Prop :=
  ∀ r ∈ rs, r.orderId = oid → r.productId ∈ pids

/-- No reservation of order `oid` is in status `Held`. -/
def NoHeld (oid : Nat) (rs : List Reservation) : Prop :=
  ∀ r ∈ rs, r.orderId = oid → r.status ≠ ResStatus.Held

/-- No reservation of order `oid` on product `pid` is in status `Held`. -/
def ClearedAt (oid pid : Nat) (rs : List Reservation) : Prop :=
  ∀ r ∈ rs, r.orderId = oid → r.productId = pid → r.status ≠ ResStatus.Held

/-- Settle, with status `st`, the held reservations of order `oid` on every
product in `pids`, in sequence. -/
def settleAll (oid : Nat) (st : ResStatus) (pids : List Nat)
    (rs : List Reservation) : List Reservation :=
  pids.foldl (fun acc pid => settleReservations oid pid st acc) rs

lemma settleRes_orderId (oid pid : Nat) (st : ResStatus) (r : Reservation) :
    (settleRes oid pid st r).orderId = r.orderId := by
  unfold settleRes
  split <;> rfl

lemma settleRes_productId (oid pid : Nat) (st : ResStatus) (r : Reservation) :
    (settleRes oid pid st r).productId = r.productId := by
  unfold settleRes
  split <;> rfl

lemma clearedAt_settle_self (oid pid : Nat) (st : ResStatus)
    (hst : st ≠ ResStatus.Held) (rs : List Reservation) :
    ClearedAt oid pid (settleReservations oid pid st rs) := by
  intro r hr h1 h2
  obtain ⟨r0, hr0, rfl⟩ := List.mem_map.mp hr
  simp only [settleRes] at h1 h2 ⊢
  by_cases hm : r0.orderId = oid ∧ r0.productId = pid ∧ r0.status = ResStatus.Held
  · rw [if_pos hm]
    exact hst
  · rw [if_neg hm] at h1 h2 ⊢
    exact fun hh => hm ⟨h1, h2, hh⟩

lemma clearedAt_settle_mono (oid pid pid2 : Nat) (st : ResStatus)
    (hst : st ≠ ResStatus.Held) (rs : List Reservation)
    (h : ClearedAt oid pid rs) :
    ClearedAt oid pid (settleReservations oid pid2 st rs) := by
  intro r hr h1 h2
  obtain ⟨r0, hr0, rfl⟩ := List.mem_map.mp hr
  simp only [settleRes] at h1 h2 ⊢
  by_cases hm : r0.orderId = oid ∧ r0.productId = pid2 ∧ r0.status = ResStatus.Held
  · rw [if_pos hm]
    exact hst
  · rw [if_neg hm] at h1 h2 ⊢
    exact h r0 hr0 h1 h2

lemma settleAll_preserves_clearedAt (oid pid : Nat) (st : ResStatus)
    (hst : st ≠ ResStatus.Held) (pids : List Nat) (rs : List Reservation)
    (h : ClearedAt oid pid rs) : ClearedAt oid pid (settleAll oid st pids rs) := by
  induction pids generalizing rs with
  | nil => exact h
  | cons p ps ih =>
      simp only [settleAll, List.foldl_cons] at *
      exact ih _ (clearedAt_settle_mono oid pid p st hst rs h)

lemma settleAll_clears (oid : Nat) (st : ResStatus) (hst : st ≠ ResStatus.Held)
    (pids : List Nat) (rs : List Reservation) :
    ∀ pid ∈ pids, ClearedAt oid pid (settleAll oid st pids rs) := by
  induction pids generalizing rs with
  | nil =>
      intro pid hmem
      cases hmem
  | cons p ps ih =>
      intro pid hmem
      simp only [settleAll, List.foldl_cons]
      rcases List.mem_cons.mp hmem with rfl | hmem2
      · exact settleAll_preserves_clearedAt oid pid st hst ps _
          (clearedAt_settle_self oid pid st hst rs)
      · exact ih _ pid hmem2

lemma mem_settleAll_origin (oid : Nat) (st : ResStatus) (pids : List Nat)
    (rs : List Reservation) (r : Reservation) (hr : r ∈ settleAll oid st pids rs) :
    ∃ r0 ∈ rs, r.orderId = r0.orderId ∧ r.productId = r0.productId := by
  induction pids generalizing rs with
  | nil => exact ⟨r, hr, rfl, rfl⟩
  | cons p ps ih =>
      simp only [settleAll, List.foldl_cons] at hr
      obtain ⟨r1, hr1, he1, he2⟩ := ih _ hr
      obtain ⟨r0, hr0, rfl⟩ := List.mem_map.mp hr1
      exact ⟨r0, hr0, by rw [he1, settleRes_orderId],
        by rw [he2, settleRes_productId]⟩

lemma settleAll_noHeld (oid : Nat) (st : ResStatus) (hst : st ≠ ResStatus.Held)
    (pids : List Nat) (rs : List Reservation) (hw : ResWithin oid pids rs) :
    NoHeld oid (settleAll oid st pids rs) := by
  intro r hr h1
  obtain ⟨r0, hr0, he1, he2⟩ := mem_settleAll_origin oid st pids rs r hr
  have hpid : r0.productId ∈ pids := hw r0 hr0 (he1.symm.trans h1)
  intro hh
  exact settleAll_clears oid st hst pids rs r0.productId hpid r hr h1 he2 hh

lemma releaseItems_reservations (oid : Nat) (items : List LineItem)
    (inv : Inventory) :
    (releaseItems oid items inv).reservations
      = settleAll oid ResStatus.Released (pidsOf items) inv.reservations := by
  induction items generalizing inv with
  | nil => rfl
  | cons it its ih =>
      simp only [releaseItems, List.foldl_cons, pidsOf, List.map_cons, settleAll]
      simp only [releaseItems, pidsOf, settleAll] at ih
      exact ih (releaseOp oid it.productId inv)

lemma commitItems_reservations (oid : Nat) (items : List LineItem)
    (inv : Inventory) :
    (commitItems oid items inv).reservations
      = settleAll oid ResStatus.Committed (pidsOf items) inv.reservations := by
  induction items generalizing inv with
  | nil => rfl
  | cons it its ih =>
      simp only [commitItems, List.foldl_cons, pidsOf, List.map_cons, settleAll]
      simp only [commitItems, pidsOf, settleAll] at ih
      exact ih (commitOp oid it.productId inv)

lemma reserveItems_within (oid : Nat) (its : List LineItem) (inv : Inventory)
    (pids : List Nat) (hsub : ∀ it ∈ its, it.productId ∈ pids)
    (h : ResWithin oid pids inv.reservations) :
    ResWithin oid pids (reserveItems oid its inv).2.reservations := by
  induction its generalizing inv with
  | nil => exact h
  | cons it rest ih =>
      simp only [reserveItems]
      rcases hres : reserveOp oid it.productId it.qty inv with ⟨res, inv2⟩
      have hinv2 : ResWithin oid pids inv2.reservations := by
        rw [reserveOp] at hres
        by_cases hk : hasReservation oid it.productId inv.reservations = true
        · rw [if_pos hk] at hres
          cases hres
          exact h
        · rw [if_neg hk] at hres
          by_cases hq : it.qty ≤ inv.available it.productId
          · rw [if_pos hq] at hres
            cases hres
            intro r hr h1
            rcases List.mem_cons.mp hr with rfl | hr2
            · exact hsub it (List.mem_cons_self it rest)
            · exact h r hr2 h1
          · rw [if_neg hq] at hres
            cases hres
            exact h
      cases res with
      | held =>
          exact ih inv2 (fun x hx => hsub x (List.mem_cons_of_mem it hx)) hinv2
      | insufficientStock => exact hinv2

/-- The coordinator's reservation invariant, by order status: before the
reservation step the order has no reservations at all; while the order is
in flight its reservations are confined to its own line items; once the
reservation step has failed, and in the terminal states, none of its
reservations is still `Held`. -/
def SagaInv (w : World) : Prop :=
  match w.order.status with
  | OrderStatus.Pending => ∀ r ∈ w.inv.reservations, r.orderId ≠ w.order.orderId
  | OrderStatus.Reserving => ∀ r ∈ w.inv.reservations, r.orderId ≠ w.order.orderId
  | OrderStatus.ReservationFailed => NoHeld w.order.orderId w.inv.reservations
  | OrderStatus.Completed => NoHeld w.order.orderId w.inv.reservations
  | OrderStatus.Cancelled => NoHeld w.order.orderId w.inv.reservations
  | _ => ResWithin w.order.orderId (pidsOf w.order.items) w.inv.reservations

lemma resWithin_of_none (oid : Nat) (pids : List Nat) (rs : List Reservation)
    (h : ∀ r ∈ rs, r.orderId ≠ oid) : ResWithin oid pids rs :=
  fun r hr h1 => absurd h1 (h r hr)

lemma reserving_failure_clears (authOk captureOk : Bool) (w : World)
    (hs : w.order.status = OrderStatus.Reserving)
    (hres : ∀ r ∈ w.inv.reservations, r.orderId ≠ w.order.orderId)
    (hfail : (reserveItems w.order.orderId w.order.items w.inv).1 = false) :
    (sagaStep authOk captureOk w).order.status = OrderStatus.ReservationFailed
    ∧ NoHeld w.order.orderId (sagaStep authOk captureOk w).inv.reservations := by
  have hwithin : ResWithin w.order.orderId (pidsOf w.order.items)
      (reserveItems w.order.orderId w.order.items w.inv).2.reservations :=
    reserveItems_within w.order.orderId w.order.items w.inv (pidsOf w.order.items)
      (fun it hit => List.mem_map_of_mem _ hit)
      (resWithin_of_none _ _ _ hres)
  rw [sagaStep, hs]
  rcases hr : reserveItems w.order.orderId w.order.items w.inv with ⟨ok, inv2⟩
  cases ok with
  | true =>
      rw [hr] at hfail
      cases hfail
  | false =>
      rw [hr] at hwithin
      refine ⟨rfl, ?_⟩
      show NoHeld w.order.orderId
        (releaseItems w.order.orderId w.order.items inv2).reservations
      rw [releaseItems_reservations]
      exact settleAll_noHeld w.order.orderId ResStatus.Released (by decide)
        (pidsOf w.order.items) inv2.reservations hwithin

lemma sagaStep_preserves_sagaInv (authOk captureOk : Bool) (w : World)
    (h : SagaInv w) : SagaInv (sagaStep authOk captureOk w) := by
  have horder : ∀ s, (setStatus w.order s).orderId = w.order.orderId ∧
      (setStatus w.order s).items = w.order.items ∧
      (setStatus w.order s).status = s := fun s => ⟨rfl, rfl, rfl⟩
  rw [SagaInv] at h
  cases hs : w.order.status
  case Pending =>
      rw [hs] at h
      rw [SagaInv, sagaStep, hs]
      exact h
  case Reserving =>
      rw [hs] at h
      have hwithin : ResWithin w.order.orderId (pidsOf w.order.items)
          (reserveItems w.order.orderId w.order.items w.inv).2.reservations :=
        reserveItems_within w.order.orderId w.order.items w.inv (pidsOf w.order.items)
          (fun it hit => List.mem_map_of_mem _ hit)
          (resWithin_of_none _ _ _ h)
      rw [SagaInv, sagaStep, hs]
      rcases hr : reserveItems w.order.orderId w.order.items w.inv with ⟨ok, inv2⟩
      rw [hr] at hwithin
      cases ok with
      | true => exact hwithin
      | false =>
          show NoHeld w.order.orderId
            (releaseItems w.order.orderId w.order.items inv2).reservations
          rw [releaseItems_reservations]
          exact settleAll_noHeld w.order.orderId ResStatus.Released (by decide)
            (pidsOf w.order.items) inv2.reservations hwithin
  case ReservationFailed =>
      rw [hs] at h
      rw [SagaInv, sagaStep, hs]
      exact h
  case Reserved =>
      rw [hs] at h
      rw [SagaInv, sagaStep, hs]
      exact h
  case Authorizing =>
      rw [hs] at h
      rw [SagaInv, sagaStep, hs]
      rcases ha : authorizeOp authOk w.order.orderId w.order.totalAmount w.pay
        with ⟨res, ps2⟩
      cases res with
      | authorized => exact h
      | declined => exact h
  case AuthorizationFailed =>
      rw [hs] at h
      rw [SagaInv, sagaStep, hs]
      show NoHeld w.order.orderId
        (releaseItems w.order.orderId w.order.items w.inv).reservations
      rw [releaseItems_reservations]
      exact settleAll_noHeld w.order.orderId ResStatus.Released (by decide)
        (pidsOf w.order.items) w.inv.reservations h
  case Authorized =>
      rw [hs] at h
      rw [SagaInv, sagaStep, hs]
      exact h
  case Capturing =>
      rw [hs] at h
      rw [SagaInv, sagaStep, hs]
      rcases hc : captureOp captureOk w.order.orderId w.pay with ⟨res, ps2⟩
      cases res with
      | captured =>
          show NoHeld w.order.orderId
            (commitItems w.order.orderId w.order.items w.inv).reservations
          rw [commitItems_reservations]
          exact settleAll_noHeld w.order.orderId ResStatus.Committed (by decide)
            (pidsOf w.order.items) w.inv.reservations h
      | failed => exact h
  case CaptureFailed =>
      rw [hs] at h
      rw [SagaInv, sagaStep, hs]
      show NoHeld w.order.orderId
        (releaseItems w.order.orderId w.order.items w.inv).reservations
      rw [releaseItems_reservations]
      exact settleAll_noHeld w.order.orderId ResStatus.Released (by decide)
        (pidsOf w.order.items) w.inv.reservations h
  case Completed =>
      have hT : sagaStep authOk captureOk w = w :=
        sagaStep_terminal authOk captureOk w (by rw [hs]; rfl)
      rw [SagaInv, hT]
      exact h
  case Cancelled =>
      have hT : sagaStep authOk captureOk w = w :=
        sagaStep_terminal authOk captureOk w (by rw [hs]; rfl)
      rw [SagaInv, hT]
      exact h

lemma runSaga_preserves_sagaInv (authOk captureOk : Bool) (n : Nat) (w : World)
    (h : SagaInv w) : SagaInv (runSaga authOk captureOk n w) := by
  induction n generalizing w with
  | zero => exact h
  | succ n ih =>
      rw [runSaga]
      by_cases ht : isTerminal w.order.status = true
      · rw [if_pos ht]
        exact h
      · rw [if_neg ht]
        exact ih _ (sagaStep_preserves_sagaInv authOk captureOk w h)

/-- C6: starting a fresh order (status `Pending`, no reservations of its
own yet) and driving the saga: whenever the reservation step partially
fails, every already-held reservation of the order is released before the
transition to `ReservationFailed` (and hence before `Cancelled`), and in
every terminal state the order retains no `Held` reservation at all. -/
theorem no_terminal_order_retains_held (authOk captureOk : Bool) (n : Nat)
    (w0 : World) (h0 : w0.order.status = OrderStatus.Pending)
    (hres0 : ∀ r ∈ w0.inv.reservations, r.orderId ≠ w0.order.orderId)
    (hterm : isTerminal (runSaga authOk captureOk n w0).order.status = true) :
    NoHeld w0.order.orderId (runSaga authOk captureOk n w0).inv.reservations
    ∧ (∀ w : World, w.order.status = OrderStatus.Reserving →
        (∀ r ∈ w.inv.reservations, r.orderId ≠ w.order.orderId) →
        (reserveItems w.order.orderId w.order.items w.inv).1 = false →
        (sagaStep authOk captureOk w).order.status = OrderStatus.ReservationFailed
        ∧ NoHeld w.order.orderId (sagaStep authOk captureOk w).inv.reservations) := by
  constructor
  · have hinv0 : SagaInv w0 := by
      rw [SagaInv, h0]
      exact hres0
    have hinv := runSaga_preserves_sagaInv authOk captureOk n w0 hinv0
    have hid := (runSaga_preserves_order_fields authOk captureOk n w0).1
    rw [SagaInv] at hinv
    rw [← hid]
    cases hsf : (runSaga authOk captureOk n w0).order.status
    all_goals rw [hsf] at hinv hterm
    all_goals first
      | exact hinv
      | exact absurd hterm (by decide)
  · intro w hs hres hfail
    exact reserving_failure_clears authOk captureOk w hs hres hfail

/-- Witness for C6: an order for 2 units of product 1 (stock 5) and 3 units
of product 2 (stock 0) fails on the second line item; after the saga the
released reservation of product 1 is in the final inventory and is not
`Held`. -/
theorem no_terminal_order_retains_held_witness :
    (⟨1, 1, 2, ResStatus.Released⟩ : Reservation) ∈
        (runSaga true true 8
          ⟨initInventory fun p => if p = 1 then 5 else 0,
            PayState.mk fun _ => none,
            createOrder 1 9 [⟨1, 2, 10⟩, ⟨2, 3, 10⟩]⟩).inv.reservations
    ∧ (⟨1, 1, 2, ResStatus.Released⟩ : Reservation).status ≠ ResStatus.Held := by
  refine ⟨by decide, ?_⟩
  exact (no_terminal_order_retains_held true true 8
      ⟨initInventory fun p => if p = 1 then 5 else 0,
        PayState.mk fun _ => none,
        createOrder 1 9 [⟨1, 2, 10⟩, ⟨2, 3, 10⟩]⟩
      rfl (by decide) (by decide)).1
    ⟨1, 1, 2, ResStatus.Released⟩ (by decide) rfl

/-- C4: an order of 3 units of a product whose available stock is 5, whose
reservation succeeds and whose payment authorization is declined, finishes
the saga with the reservation released, the product's available quantity
again 5 and the order `Cancelled`. -/
theorem declined_payment_compensates (oid buyer pid price : Nat)
    (stock : Nat → Nat) (hstock : stock pid = 5) :
    ((runSaga false true 8
        ⟨initInventory stock, PayState.mk fun _ => none,
          createOrder oid buyer [⟨pid, 3, price⟩]⟩).order.status
        = OrderStatus.Cancelled)
    ∧ ((runSaga false true 8
        ⟨initInventory stock, PayState.mk fun _ => none,
          createOrder oid buyer [⟨pid, 3, price⟩]⟩).inv.available pid = 5)
    ∧ ((runSaga false true 8
        ⟨initInventory stock, PayState.mk fun _ => none,
          createOrder oid buyer [⟨pid, 3, price⟩]⟩).inv.reservations
        = [⟨oid, pid, 3, ResStatus.Released⟩]) := by
  refine ⟨?_, ?_, ?_⟩ <;>
    simp [runSaga, sagaStep, isTerminal, reserveItems, reserveOp, hasReservation,
      createOrder, setStatus, releaseItems, releaseOp, authorizeOp, commitItems,
      settleReservations, settleRes, heldQty, resHeld, initInventory, lineTotal,
      pidsOf, hstock]

/-- Witness for C4: order 1 by buyer 2 for 3 units of product 3 at unit
price 10, all stock levels 5, payment declined: the saga ends `Cancelled`. -/
theorem declined_payment_compensates_witness :
    (runSaga false true 8
        ⟨initInventory fun _ => 5, PayState.mk fun _ => none,
          createOrder 1 2 [⟨3, 3, 10⟩]⟩).order.status = OrderStatus.Cancelled :=
  (declined_payment_compensates 1 2 3 10 (fun _ => 5) rfl).1

/-! ## Frontend: products page search filter
(src/frontend/app/cart/page.tsx, `ProductsPage`) -/

/-- A product as the products page receives it from the product service. -/
structure Product where
  id : Nat
  name : String
  description : String
  price : String
deriving DecidableEq, Repr

/-- Whether the character list `s` starts with `needle`. -/
def charsStartsWith : List Char → List Char → Bool
  | _, [] => true
  | [], _ :: _ => false
  | c :: cs, d :: ds => c == d && charsStartsWith cs ds

/-- Whether `needle` occurs contiguously in `s`: the semantics of
JavaScript's `String.prototype.includes`. -/
def charsIncludes : List Char → List Char → Bool
  | [], needle => needle.isEmpty
  | c :: cs, needle => charsStartsWith (c :: cs) needle || charsIncludes cs needle

/-- `s.includes(sub)` on strings. -/
def strIncludes (s sub : String) : Bool :=
  charsIncludes s.data sub.data

/-- `s.toLowerCase()`: every character lowered. -/
def strToLower (s : String) : String :=
  ⟨s.data.map Char.toLower⟩

/-- Embeds the search filter of `ProductsPage`: keep a product when its
lowercased name or its lowercased description includes the lowercased
search term. -/
def filterProducts (searchTerm : String) (products : List Product) :
    List Product :=
  products.filter fun product =>
    strIncludes (strToLower product.name) (strToLower searchTerm)
    || strIncludes (strToLower product.description) (strToLower searchTerm)

lemma charsStartsWith_iff (t s : List Char) :
    charsStartsWith s t = true ↔ ∃ rest, s = t ++ rest := by
  induction t generalizing s with
  | nil =>
      constructor
      · intro _
        exact ⟨s, rfl⟩
      · intro _
        cases s <;> rfl
  | cons d ds ih =>
      cases s with
      | nil => simp [charsStartsWith]
      | cons c cs =>
          simp [charsStartsWith, ih, List.cons_append, exists_and_left]

lemma charsIncludes_nil (s : List Char) : charsIncludes s [] = true := by
  cases s <;> rfl

lemma charsIncludes_iff (s t : List Char) :
    charsIncludes s t = true ↔ ∃ pre post, s = pre ++ t ++ post := by
  induction s with
  | nil =>
      simp only [charsIncludes, List.isEmpty_iff]
      constructor
      · intro h
        exact ⟨[], [], by simp [h]⟩
      · rintro ⟨pre, post, hp⟩
        rcases List.append_eq_nil.mp (List.append_eq_nil.mp hp.symm).1 with ⟨-, h2⟩
        exact h2
  | cons c cs ih =>
      rw [charsIncludes]
      simp only [Bool.or_eq_true, ih, charsStartsWith_iff t (c :: cs)]
      constructor
      · rintro (⟨rest, hr⟩ | ⟨pre, post, hp⟩)
        · exact ⟨[], rest, by simpa using hr⟩
        · exact ⟨c :: pre, post, by simp [hp]⟩
      · rintro ⟨pre, post, hp⟩
        cases pre with
        | nil => exact Or.inl ⟨post, by simpa using hp⟩
        | cons x xs =>
            simp only [List.cons_append, List.cons.injEq] at hp
            exact Or.inr ⟨xs, post, hp.2⟩

/-- `t` occurs in `s` comparing case-insensitively, both sides lowered. -/
def ContainsCI (s t : String) : Prop :=
  ∃ pre post, (strToLower s).data = pre ++ (strToLower t).data ++ post

/-- C8: the products page filter retains exactly the products whose name or
description contains the search term case-insensitively (lowercasing both
sides), preserving their order, and the empty search term leaves the list
unchanged. -/
theorem products_filter_characterization (searchTerm : String)
    (products : List Product) :
    List.Sublist (filterProducts searchTerm products) products
    ∧ (∀ p : Product, p ∈ filterProducts searchTerm products ↔
        p ∈ products ∧ (ContainsCI p.name searchTerm ∨ ContainsCI p.description searchTerm))
    ∧ filterProducts "" products = products := by
  refine ⟨List.filter_sublist _, ?_, ?_⟩
  · intro p
    rw [filterProducts, List.mem_filter]
    simp [strIncludes, charsIncludes_iff, ContainsCI]
  · rw [filterProducts]
    apply List.filter_eq_self.mpr
    intro p hp
    have h0 : (strToLower "").data = [] := rfl
    simp [strIncludes, h0, charsIncludes_nil]

/-! ## Frontend: header cart badge (src/unnamed/part_001, `Header`) -/

/-- A cart item as the cart store holds it. -/
structure CartItem where
  id : Nat
  name : String
  price : String
  quantity : Nat
deriving DecidableEq, Repr

/-- Embeds the Header's count:
`items.reduce((total, item) => total + item.quantity, 0)`. -/
def itemCount (items : List CartItem) : Nat :=
  items.foldl (fun total item => total + item.quantity) 0

/-- Embeds the Header's cart badge: rendered, showing the item count,
exactly when `itemCount > 0`. -/
def cartBadge (items : List CartItem) : Option Nat :=
  if itemCount items > 0 then some (itemCount items) else none

lemma foldl_add_quantity (items : List CartItem) (n : Nat) :
    items.foldl (fun total item => total + item.quantity) n
      = n + (items.map fun item => item.quantity).sum := by
  induction items generalizing n with
  | nil => simp
  | cons it its ih => simp [ih, Nat.add_assoc]

/-- C9: the header badge's item count equals the sum of the quantities of
all cart items, and the badge is rendered exactly when that sum is
positive; an empty cart shows no badge. -/
theorem header_cart_badge (items : List CartItem) :
    itemCount items = (items.map fun item => item.quantity).sum
    ∧ (cartBadge items = some (itemCount items)
        ↔ 0 < (items.map fun item => item.quantity).sum)
    ∧ (cartBadge items = none ↔ (items.map fun item => item.quantity).sum = 0)
    ∧ cartBadge [] = none := by
  have hc : itemCount items = (items.map fun item => item.quantity).sum := by
    rw [itemCount, foldl_add_quantity]
    simp
  refine ⟨hc, ?_, ?_, rfl⟩
  · by_cases h : 0 < (items.map fun item => item.quantity).sum
    · simp [cartBadge, hc, h]
    · simp [cartBadge, hc, h]
  · by_cases h : 0 < (items.map fun item => item.quantity).sum
    · simp [cartBadge, hc, h]
      omega
    · simp [cartBadge, hc, h]
      omega

/-! ## Frontend: admin test dashboard
(src/frontend/app/admin/tests/page.tsx, `runAllTests`) -/

/-- The status a test run can display. -/
inductive TestStatus
  | idle
  | running
  | passed
  | failed
deriving DecidableEq, Repr

/-- One service's displayed test result. -/
structure TestResult where
  service : String
  status : TestStatus
  totalTests : Nat
  passedTests : Nat
  failedTests : Nat
  duration : Nat
deriving DecidableEq, Repr

/-- The overall statistics panel. -/
structure OverallStats where
  total : Nat
  passed : Nat
  failed : Nat
  running : Nat
deriving DecidableEq, Repr

/-- The dashboard's state: per-service results and overall statistics. -/
structure DashboardState where
  testResults : List TestResult
  overallStats : OverallStats
deriving DecidableEq, Repr

/-- Embeds `mockTestResults`: the hard-coded demonstration data of the
admin test dashboard. -/
def mockTestResults : List TestResult :=
  [⟨"api-gateway", TestStatus.passed, 52, 52, 0, 173⟩,
   ⟨"product-service", TestStatus.passed, 24, 24, 0, 122⟩,
   ⟨"user-service", TestStatus.passed, 23, 23, 0, 144⟩,
   ⟨"inventory-service", TestStatus.passed, 23, 23, 0, 94⟩,
   ⟨"order-service", TestStatus.passed, 23, 23, 0, 84⟩,
   ⟨"payment-service", TestStatus.passed, 27, 27, 0, 110⟩]

/-- Embeds `runAllTests` of the admin test dashboard: it copies the mock
results, marks each one `passed` in turn, and sets the overall statistics
to the constants 172/172/0/0.  The services' real test outcomes
(`actualOutcomes`) and the current dashboard state are never consulted. -/
def runAllTests (_actualOutcomes : String → Bool) (_s : DashboardState) :
    DashboardState :=
  { testResults := mockTestResults.map fun r => { r with status := TestStatus.passed },
    overallStats := { total := 172, passed := 172, failed := 0, running := 0 } }

/-- C10: `runAllTests` terminates with every listed service's status
`passed` and the overall statistics 172 total, 172 passed, 0 failed,
whatever the actual test outcomes and the prior dashboard state: its
result is one constant. -/
theorem runAllTests_constant (a b : String → Bool) (s t : DashboardState) :
    runAllTests a s = runAllTests b t
    ∧ (runAllTests a s).overallStats = ⟨172, 172, 0, 0⟩
    ∧ (∀ r ∈ (runAllTests a s).testResults, r.status = TestStatus.passed) := by
  refine ⟨rfl, rfl, ?_⟩
  show ∀ r ∈ mockTestResults.map fun r => { r with status := TestStatus.passed },
      r.status = TestStatus.passed
  decide

end Ecom
